import Mathlib

/-!
Verification of the resumail backend batch-aggregation pipeline
(`server/index.js`, the `/analyzev2` route and its helpers:
`safeParseJson`, `chunkArray`, the credit decrement, the per-batch
oracle loop and `mergeReports`).

The JavaScript is embedded shallowly:

* JavaScript values produced by `JSON.parse` are modelled by the
  inductive type `JsVal`; objects are association lists in property
  insertion order (the parse output of a JSON object text).  Numbers are
  modelled as integers: every numeric literal that this development
  evaluates is integer-valued, so the double-precision representation
  is exact.
* `JSON.parse` itself is a JavaScript builtin, not repository code, so
  the functions that call it are parameterized by an arbitrary
  `jsonParse : String -> Option JsObj` (`none` models a parse
  exception).  The regexp guarantees the parsed text starts with a
  brace and ends with a brace, so a successful `JSON.parse` always
  yields an object; hence the codomain.  Concrete theorems instantiate
  the parameter with small documented fragments of `JSON.parse`.
* The OpenAI client and the Supabase storage layer are external
  services; their responses are modelled by scripts indexed by call
  order (`script : Nat -> Option String` for oracle responses, `none`
  modelling a thrown/failed call, and `Nat -> Bool` for per-batch
  insert success).  Execution is sequential, as in the source (one
  outstanding call at a time).
-/

/-- JavaScript values as produced by `JSON.parse`.  Objects keep their
properties as an association list in insertion order with no duplicate
keys (which is what `JSON.parse` returns).  Numbers are modelled as
integers (see the header note). -/
inductive JsVal where
  | null
  | bool (b : Bool)
  | num (n : Int)
  | str (s : String)
  | arr (elems : List JsVal)
  | obj (fields : List (String × JsVal))

/-- A parsed JSON object: properties in insertion order. -/
abbrev JsObj := List (String × JsVal)

/-- Property read (`o.k` in JavaScript): `none` models `undefined`. -/
def getProp : JsObj → String → Option JsVal
  | [], _ => none
  | p :: ps, k => if p.1 = k then some p.2 else getProp ps k

/-- Whether a property is present on the object. -/
def hasProp (o : JsObj) (k : String) : Bool :=
  (getProp o k).isSome

/-- Property write (`o.k = v` in JavaScript): overwrites the property
in place when present, appends it (insertion order) when absent. -/
def setProp (o : JsObj) (k : String) (v : JsVal) : JsObj :=
  if hasProp o k then o.map (fun p => if p.1 = k then (k, v) else p)
  else o ++ [(k, v)]

/-- JavaScript truthiness of a value (`undefined` is handled at the
property-read site, see `propTruthy`). -/
def truthy : JsVal → Bool
  | .null => false
  | .bool b => b
  | .num n => n != 0
  | .str s => s != ""
  | .arr _ => true
  | .obj _ => true

/-- Truthiness of `o.k`: a missing property reads as `undefined`,
which is falsy. -/
def propTruthy (o : JsObj) (k : String) : Bool :=
  match getProp o k with
  | some v => truthy v
  | none => false

/-- The character `{` (written via its code point; see `extractJson`). -/
def lbrace : Char := Char.ofNat 123

/-- The character `}`. -/
def rbrace : Char := Char.ofNat 125

/-- Index of the first occurrence of a character in a list, if any. -/
def firstIdx (c : Char) : List Char → Option Nat
  | [] => none
  | x :: xs => if x = c then some 0 else (firstIdx c xs).map (· + 1)

/-- Index of the last occurrence of a character in a list, if any. -/
def lastIdx (c : Char) (cs : List Char) : Option Nat :=
  match firstIdx c cs.reverse with
  | none => none
  | some j => some (cs.length - 1 - j)

/-- `str.match(/\x7b[\s\S]*\x7d/m)` from `safeParseJson`
(source `server/index.js` line 505): the regexp matches, greedily, from
the first `\x7b` in the text to the last `\x7d`, provided some `\x7d`
occurs strictly after the first `\x7b`; the `m` flag is irrelevant to
this pattern.  Returns the matched substring. -/
def extractJson (s : String) : Option String :=
  let cs := s.toList
  match firstIdx lbrace cs, lastIdx rbrace cs with
  | some i, some j =>
      if i < j then some (String.mk ((cs.drop i).take (j - i + 1))) else none
  | _, _ => none

/-- `s.slice(0, n)` on a JavaScript string counts UTF-16 code units;
for the basic-multilingual-plane strings handled in this development
code units coincide with characters, so we take `n` characters. -/
def jsSlice (s : String) (n : Nat) : String :=
  String.mk (s.toList.take n)

/-- The all-zero classification object
`\x7b positive:0, negative:0, neutral:0, other:0 \x7d`
(source lines 509 and 517). -/
def defaultClassification : JsVal :=
  .obj [("positive", .num 0), ("negative", .num 0),
        ("neutral", .num 0), ("other", .num 0)]

/-- The pure-fallback result built in the `catch` branch of
`safeParseJson` (source lines 514-520): `total_emails = fallbackTotal`,
all-zero classification, empty highlights, and
`summary = str.slice(0, 1000)` where `str` is the whole raw text. -/
def fallbackResult (s : String) (fallbackTotal : Int) : JsObj :=
  [("total_emails", .num fallbackTotal),
   ("classification", defaultClassification),
   ("highlights", .arr []),
   ("summary", .str (jsSlice s 1000))]

/-- One default-filling statement `if (!parsed.k) parsed.k = dflt;`
(source lines 508-511): the assignment runs when the property is
missing or its value is falsy. -/
def fixupProp (o : JsObj) (k : String) (dflt : JsVal) : JsObj :=
  if propTruthy o k then o else setProp o k dflt

/-- The four default-filling statements of `safeParseJson` applied in
source order (lines 508-511). -/
def fixupParsed (o : JsObj) (fallbackTotal : Int) : JsObj :=
  fixupProp
    (fixupProp
      (fixupProp
        (fixupProp o "total_emails" (.num fallbackTotal))
        "classification" defaultClassification)
      "highlights" (.arr []))
    "summary" (.str "")

/-- `safeParseJson(str, fallbackTotal)` (source lines 503-523),
parameterized by the `JSON.parse` builtin.  The statement after the
`try`/`catch` (line 522, `parsed.sentiment_overall = ...`) follows a
`return` on every path and is unreachable, so it is not modelled. -/
def safeParseJson (jsonParse : String → Option JsObj) (s : String)
    (fallbackTotal : Int) : JsObj :=
  match extractJson s with
  | none => fallbackResult s fallbackTotal
  | some sub =>
    match jsonParse sub with
    | none => fallbackResult s fallbackTotal
    | some parsed => fixupParsed parsed fallbackTotal

/-- `chunkArray(arr, size)` (source lines 571-576): successive slices
`arr.slice(i, i + size)` for `i = 0, size, 2*size, ...`.  For
`size = 0` the JavaScript loop would not terminate; the function is
only ever called with sizes 50 and 5, and every theorem below assumes
`1 ≤ size`, so that case is mapped to `[]`. -/
def chunkArray : List α → Nat → List (List α)
  | _, 0 => []
  | [], _ => []
  | x :: xs, s + 1 =>
      (x :: xs).take (s + 1) :: chunkArray ((x :: xs).drop (s + 1)) (s + 1)
termination_by l _ => l.length
decreasing_by
  simp only [List.length_drop, List.length_cons]
  omega

/-- Arithmetic step for `chunkArray_length`. -/
theorem ceilDiv_succ_step (m s : Nat) :
    (m - s + s) / (s + 1) + 1 = (m + s + 1) / (s + 1) := by
  rcases le_or_lt s m with h | h
  · rw [Nat.sub_add_cancel h]
    have h2 : m + s + 1 = m + (s + 1) := by omega
    rw [h2, Nat.add_div_right _ (Nat.succ_pos s)]
  · have h1 : m - s = 0 := by omega
    have h2 : (m + s + 1) / (s + 1) = 1 := by
      apply Nat.div_eq_of_lt_le <;> omega
    rw [h1, h2, Nat.zero_add, Nat.div_eq_of_lt (Nat.lt_succ_self s)]

/-- Number of chunks: the ceiling of `l.length / s` (also correct for
`s = 0`, where both sides are `0` by `Nat` division). -/
theorem chunkArray_length (l : List α) (s : Nat) :
    (chunkArray l s).length = (l.length + s - 1) / s := by
  induction l, s using chunkArray.induct with
  | case1 l => simp [chunkArray]
  | case2 s =>
      rcases s with _ | s
      · simp [chunkArray]
      · simp [chunkArray, Nat.div_eq_of_lt (Nat.lt_succ_self s)]
  | case3 x xs s ih =>
      rw [chunkArray, List.length_cons, ih, List.length_drop, List.length_cons]
      simp only [Nat.succ_eq_add_one]
      have e1 : xs.length + 1 - (s + 1) + (s + 1) - 1 = xs.length - s + s := by
        omega
      have e2 : xs.length + 1 + (s + 1) - 1 = xs.length + s + 1 := by omega
      rw [e1, e2, ceilDiv_succ_step]

/-- One input record (`emails[i]` in the source).  The JavaScript
property `from` is renamed `sender` (`from` is a Lean keyword); the
fields only feed the oracle prompt text, which the oracle model below
treats as opaque. -/
structure Email where
  sender : String
  subject : String
  body : String

/-- Account balances: the `profiles` table restricted to its `credits`
column, as an association list from user id to credits. -/
abbrev Profiles := List (String × Int)

/-- `profiles.lookup` by id (the `select("credits").eq("id", userId)`
row read). -/
def getBalance : Profiles → String → Option Int
  | [], _ => none
  | p :: ps, u => if p.1 = u then some p.2 else getBalance ps u

/-- `update(\x7b credits: v \x7d).eq("id", userId)`: overwrite the
credits of the matching row(s). -/
def setBalance (ps : Profiles) (u : String) (v : Int) : Profiles :=
  ps.map (fun p => if p.1 = u then (u, v) else p)

/-- Modelled from the spec: the stored procedure `decrement_credits`
invoked by `supabase.rpc("decrement_credits", ...)` (source lines
541-544) is not part of the repository (only its caller is).  Section
4.4 of the design describes it as the atomic
decrement-with-floor-check: decrement only if the account exists and
`balance ≥ amount`, returning the new balance, otherwise reject
(an rpc error) and change nothing.  Returns (result, new table). -/
def decrementCredits (ps : Profiles) (u : String) (amount : Int) :
    Option Int × Profiles :=
  match getBalance ps u with
  | some b =>
      if amount ≤ b then (some (b - amount), setBalance ps u (b - amount))
      else (none, ps)
  | none => (none, ps)

/-- Errors of the credit-reservation step (source lines 538-568):
`notEnoughCredits` is the 402 "Not enough credits" response,
`userNotFound` the 404 "User not found" response. -/
inductive CreditErr where
  | notEnoughCredits
  | userNotFound

/-- The credit-reservation step of `/analyzev2` (source lines 538-568),
returning the new balance reported to the caller and the updated
table.  `rpcThrows` selects the environment: when the rpc call itself
throws, control reaches the manual fallback (read balance, compare,
write back); when the rpc returns an error object, the route answers
402.  The fallback's unchecked `updated.credits` read is modelled as
the update succeeding (its failure would throw; the storage layer is
assumed to answer reads and writes here). -/
def creditStep (rpcThrows : Bool) (ps : Profiles) (u : String)
    (needed : Int) : Except CreditErr Int × Profiles :=
  if rpcThrows then
    match getBalance ps u with
    | none => (.error .userNotFound, ps)
    | some credits =>
        if credits < needed then (.error .notEnoughCredits, ps)
        else (.ok (credits - needed), setBalance ps u (credits - needed))
  else
    match decrementCredits ps u needed with
    | (some nb, ps') => (.ok nb, ps')
    | (none, ps') => (.error .notEnoughCredits, ps')

/-- A row of the `reports` table as written by `/analyzev2`
(source lines 626-641 and 700-716).  The columns copied from a parsed
result are modelled as the corresponding property reads (`none` for a
JavaScript `undefined`); `report_text` and `summary` both receive
`parsed.summary`, and `sentiment_overall` receives
`parsed.classification`. -/
structure ReportRow where
  rid : Nat
  user_id : String
  total_emails : Option JsVal
  report_text : Option JsVal
  summary : Option JsVal
  classification : Option JsVal
  highlights : Option JsVal
  sentiment_overall : Option JsVal
  mini_report_ids : Option (List Nat)
  is_final : Bool

/-- The accumulator of the per-batch loop (source lines 579-650):
`miniReportIds`, `partialJsons` (named `parts` here), the rows written
so far, and the next id the store will assign. -/
structure BatchAcc where
  miniIds : List Nat
  parts : List JsObj
  rows : List ReportRow
  nextId : Nat

/-- The raw text of one oracle response: a thrown call (`none` in the
script) leaves `aiRaw` at `""` (source lines 607-621). -/
def rawOf (resp : Option String) : String :=
  resp.getD ""

/-- The repaired result of batch `i` (source line 623):
`safeParseJson(aiRaw, batch.length)`. -/
def batchParsed (jsonParse : String → Option JsObj)
    (script : Nat → Option String) (i : Nat) (b : List Email) : JsObj :=
  safeParseJson jsonParse (rawOf (script i)) b.length

/-- The mini-report row built from a parsed batch result
(source lines 626-641). -/
def miniRow (uid : String) (rid : Nat) (parsed : JsObj) : ReportRow :=
  { rid := rid
    user_id := uid
    total_emails := getProp parsed "total_emails"
    report_text := getProp parsed "summary"
    summary := getProp parsed "summary"
    classification := getProp parsed "classification"
    highlights := getProp parsed "highlights"
    sentiment_overall := getProp parsed "classification"
    mini_report_ids := none
    is_final := false }

/-- One iteration of the batch loop (source lines 583-650): call the
oracle (`script i`), repair the response, insert the mini-report; on a
successful insert both the id and the parsed result are recorded, on a
failed insert neither is (lines 643-649). -/
def processBatch (jsonParse : String → Option JsObj)
    (script : Nat → Option String) (insertOk : Nat → Bool) (uid : String)
    (i : Nat) (b : List Email) (acc : BatchAcc) : BatchAcc :=
  let parsed := batchParsed jsonParse script i b
  if insertOk i then
    { miniIds := acc.miniIds ++ [acc.nextId]
      parts := acc.parts ++ [parsed]
      rows := acc.rows ++ [miniRow uid acc.nextId parsed]
      nextId := acc.nextId + 1 }
  else acc

/-- The whole batch loop, batch `i` using oracle call number `i`
(calls are issued one per batch, in order). -/
def runBatches (jsonParse : String → Option JsObj)
    (script : Nat → Option String) (insertOk : Nat → Bool) (uid : String) :
    List (List Email) → Nat → BatchAcc → BatchAcc
  | [], _, acc => acc
  | b :: rest, i, acc =>
      runBatches jsonParse script insertOk uid rest (i + 1)
        (processBatch jsonParse script insertOk uid i b acc)

/-- One merge-group oracle call (source lines 672-690): on success the
response is repaired with fallback count 0, on a thrown call the
group's first member `group[0]` is used instead. -/
def mergeGroup (jsonParse : String → Option JsObj) (resp : Option String)
    (group : List JsObj) : JsObj :=
  match resp with
  | some raw => safeParseJson jsonParse raw 0
  | none => group.headI

/-- The loop over merge groups (source lines 658-691), threading the
oracle call counter; returns the `merged` list and the next call
number. -/
def mergeGroups (jsonParse : String → Option JsObj)
    (script : Nat → Option String) :
    List (List JsObj) → Nat → List JsObj × Nat
  | [], c => ([], c)
  | g :: gs, c =>
      let m := mergeGroup jsonParse (script c) g
      let r := mergeGroups jsonParse script gs (c + 1)
      (m :: r.1, r.2)

/-- `mergeGroups` produces exactly one merged result per group. -/
theorem mergeGroups_length (jsonParse : String → Option JsObj)
    (script : Nat → Option String) :
    ∀ (gs : List (List JsObj)) (c : Nat),
      (mergeGroups jsonParse script gs c).1.length = gs.length
  | [], _ => rfl
  | g :: gs, c => by
      simp [mergeGroups, mergeGroups_length jsonParse script gs (c + 1)]

/-- Outcome of `mergeReports`: `result = none` models the JavaScript
`undefined` returned for an empty input (`merged[0]` of an empty
`merged`); `callIdx` is the next oracle call number; `rounds` counts
the executed grouping rounds. -/
structure MergeOut where
  result : Option JsObj
  callIdx : Nat
  rounds : Nat

/-- `mergeReports(jsonList)` (source lines 653-695): return a
single-element list's head unchanged; otherwise group by
`MERGE_BATCH_SIZE = 5`, merge each group through the oracle, and
recurse while more than one merged result remains. -/
def mergeReports (jsonParse : String → Option JsObj)
    (script : Nat → Option String) :
    List JsObj → Nat → MergeOut
  | l, c =>
    if h : l.length = 1 then { result := l.head?, callIdx := c, rounds := 0 }
    else
      let gm := mergeGroups jsonParse script (chunkArray l 5) c
      if h2 : 1 < gm.1.length then
        let r := mergeReports jsonParse script gm.1 gm.2
        { r with rounds := r.rounds + 1 }
      else { result := gm.1.head?, callIdx := gm.2, rounds := 1 }
termination_by l _ => l.length
decreasing_by
  rw [mergeGroups_length, chunkArray_length] at h2 ⊢
  omega

/-- The environment of one `/analyzev2` run: account table, whether the
`decrement_credits` rpc throws (vs. answering), the oracle response
script (indexed by call order, `none` = the call throws), per-batch
mini-insert success, final-insert success, the configured
`CREDITS_PER_EMAIL` (an integer; `Number(env)` of a non-numeric value
is out of scope), the first id the report store will assign, and the
`JSON.parse` builtin. -/
structure World where
  profiles : Profiles
  rpcThrows : Bool
  script : Nat → Option String
  miniInsertOk : Nat → Bool
  finalInsertOk : Bool
  creditsPerEmail : Int
  nextReportId : Nat
  jsonParse : String → Option JsObj

/-- The responses of `/analyzev2` (source lines 525-744):
`badRequest` is the 400 for a missing/empty `userId` or `emails`;
`notEnoughCredits` the 402; `userNotFound` the 404;
`finalSaveFailed` the 500 "Failed to save final report";
`internalError` the 500 "IA analysis failed" produced by the outer
`catch` — in this model it is reached exactly when `mergeReports`
returns `undefined` and `finalJson.total_emails` throws a `TypeError`;
`ok` carries `creditsLeft`, `totalEmails`, `mini_report_ids`,
`finalReportId` and `finalReport` of the JSON response. -/
inductive AnalyzeOutcome where
  | badRequest
  | notEnoughCredits
  | userNotFound
  | finalSaveFailed
  | internalError
  | ok (creditsLeft : Int) (totalEmails : Nat) (miniIds : List Nat)
      (finalReportId : Nat) (finalReport : JsObj)

/-- What one `/analyzev2` run leaves behind: the response, the account
table, the rows written to the report store, and the number of oracle
calls issued. -/
structure AnalyzeResult where
  outcome : AnalyzeOutcome
  profiles : Profiles
  rows : List ReportRow
  oracleCalls : Nat

/-- The final-report row (source lines 700-716). -/
def finalRow (uid : String) (rid : Nat) (finalJson : JsObj)
    (miniIds : List Nat) : ReportRow :=
  { rid := rid
    user_id := uid
    total_emails := getProp finalJson "total_emails"
    report_text := getProp finalJson "summary"
    summary := getProp finalJson "summary"
    classification := getProp finalJson "classification"
    highlights := getProp finalJson "highlights"
    sentiment_overall := getProp finalJson "classification"
    mini_report_ids := some miniIds
    is_final := true }

/-- The `/analyzev2` route (source lines 525-744), sequentially:
validate the request, reserve credits (`creditStep`), split into
batches of `BATCH_SIZE = 50` (`chunkArray`), run the batch loop
(`runBatches`), merge (`mergeReports`, oracle calls continuing the
same sequence), insert the final report, and re-read the balance for
the response (`profileAfter?.credits ?? newBalance`). -/
def analyzev2 (w : World) (uid : String) (emails : List Email) :
    AnalyzeResult :=
  if uid = "" ∨ emails.isEmpty then
    { outcome := .badRequest, profiles := w.profiles, rows := [],
      oracleCalls := 0 }
  else
    let needed : Int := emails.length * w.creditsPerEmail
    match creditStep w.rpcThrows w.profiles uid needed with
    | (.error .notEnoughCredits, ps) =>
        { outcome := .notEnoughCredits, profiles := ps, rows := [],
          oracleCalls := 0 }
    | (.error .userNotFound, ps) =>
        { outcome := .userNotFound, profiles := ps, rows := [],
          oracleCalls := 0 }
    | (.ok newBalance, ps) =>
        let batches := chunkArray emails 50
        let acc := runBatches w.jsonParse w.script w.miniInsertOk uid
          batches 0 ⟨[], [], [], w.nextReportId⟩
        let mo := mergeReports w.jsonParse w.script acc.parts batches.length
        match mo.result with
        | none =>
            { outcome := .internalError, profiles := ps, rows := acc.rows,
              oracleCalls := mo.callIdx }
        | some finalJson =>
            if w.finalInsertOk then
              let creditsLeft :=
                match getBalance ps uid with
                | some c => c
                | none => newBalance
              { outcome := .ok creditsLeft emails.length acc.miniIds
                  acc.nextId finalJson
                profiles := ps
                rows := acc.rows ++ [finalRow uid acc.nextId finalJson acc.miniIds]
                oracleCalls := mo.callIdx }
            else
              { outcome := .finalSaveFailed, profiles := ps, rows := acc.rows,
                oracleCalls := mo.callIdx }

/-- Reading a concatenation: the left part shadows the right. -/
theorem getProp_append (o1 o2 : JsObj) (k : String) :
    getProp (o1 ++ o2) k =
      match getProp o1 k with
      | some v => some v
      | none => getProp o2 k := by
  induction o1 with
  | nil => simp [getProp]
  | cons p ps ih =>
      by_cases h : p.1 = k <;> simp [getProp, h, ih]

/-- Reading the overwritten key after an in-place update. -/
theorem getProp_mapUpdate_self (o : JsObj) (k : String) (v : JsVal) :
    getProp (o.map fun p => if p.1 = k then (k, v) else p) k =
      if hasProp o k then some v else none := by
  induction o with
  | nil => simp [getProp, hasProp]
  | cons p ps ih =>
      by_cases h : p.1 = k
      · simp [getProp, hasProp, h]
      · simp [getProp, hasProp, h, ih]

/-- Reading another key after an in-place update. -/
theorem getProp_mapUpdate_other (o : JsObj) (k k' : String) (v : JsVal)
    (h : k' ≠ k) :
    getProp (o.map fun p => if p.1 = k then (k, v) else p) k' =
      getProp o k' := by
  induction o with
  | nil => simp [getProp]
  | cons p ps ih =>
      by_cases hp : p.1 = k
      · have : k ≠ k' := fun e => h e.symm
        simp [getProp, hp, this, ih]
      · by_cases hp' : p.1 = k' <;> simp [getProp, hp, hp', h, ih]

/-- `o.k = v; o.k` reads back `v`. -/
theorem getProp_setProp_self (o : JsObj) (k : String) (v : JsVal) :
    getProp (setProp o k v) k = some v := by
  unfold setProp
  by_cases h : hasProp o k
  · simp [h, getProp_mapUpdate_self]
  · have hn : getProp o k = none := by
      unfold hasProp at h
      cases hg : getProp o k with
      | none => rfl
      | some v' => rw [hg] at h; simp at h
    simp [h, getProp_append, hn, getProp]

/-- `o.k = v` does not change any other property. -/
theorem getProp_setProp_other (o : JsObj) (k k' : String) (v : JsVal)
    (h : k' ≠ k) :
    getProp (setProp o k v) k' = getProp o k' := by
  have hne : k ≠ k' := fun e => h e.symm
  unfold setProp
  by_cases hk : hasProp o k
  · simp [hk, getProp_mapUpdate_other o k k' v h]
  · rw [if_neg hk, getProp_append]
    cases hg : getProp o k' with
    | none => simp [getProp, hne]
    | some v' => simp

/-- Reading the fixed-up key. -/
theorem getProp_fixupProp_self (o : JsObj) (k : String) (d : JsVal) :
    getProp (fixupProp o k d) k =
      if propTruthy o k then getProp o k else some d := by
  unfold fixupProp
  by_cases h : propTruthy o k <;> simp [h, getProp_setProp_self]

/-- `fixupProp` at `k` does not change other properties. -/
theorem getProp_fixupProp_other (o : JsObj) (k k' : String) (d : JsVal)
    (h : k' ≠ k) :
    getProp (fixupProp o k d) k' = getProp o k' := by
  unfold fixupProp
  by_cases hk : propTruthy o k <;> simp [hk, getProp_setProp_other o k k' d h]

/-- `fixupProp` at `k` preserves the truthiness of other properties. -/
theorem propTruthy_fixupProp_other (o : JsObj) (k k' : String) (d : JsVal)
    (h : k' ≠ k) :
    propTruthy (fixupProp o k d) k' = propTruthy o k' := by
  unfold propTruthy
  rw [getProp_fixupProp_other o k k' d h]

/-- A truthy property is present. -/
theorem propTruthy_isSome (o : JsObj) (k : String)
    (h : propTruthy o k = true) : (getProp o k).isSome = true := by
  unfold propTruthy at h
  cases hg : getProp o k with
  | none => rw [hg] at h; simp at h
  | some v => simp

/-- `total_emails` after the four fixups. -/
theorem getProp_fixupParsed_total (o : JsObj) (n : Int) :
    getProp (fixupParsed o n) "total_emails" =
      if propTruthy o "total_emails" then getProp o "total_emails"
      else some (.num n) := by
  unfold fixupParsed
  rw [getProp_fixupProp_other _ _ _ _ (by decide),
    getProp_fixupProp_other _ _ _ _ (by decide),
    getProp_fixupProp_other _ _ _ _ (by decide),
    getProp_fixupProp_self]

/-- `classification` after the four fixups. -/
theorem getProp_fixupParsed_classification (o : JsObj) (n : Int) :
    getProp (fixupParsed o n) "classification" =
      if propTruthy o "classification" then getProp o "classification"
      else some defaultClassification := by
  unfold fixupParsed
  rw [getProp_fixupProp_other _ _ _ _ (by decide),
    getProp_fixupProp_other _ _ _ _ (by decide),
    getProp_fixupProp_self,
    propTruthy_fixupProp_other _ _ _ _ (by decide)]
  by_cases h : propTruthy o "classification" <;>
    simp [h, getProp_fixupProp_other _ _ _ _ (by decide : ("classification" : String) ≠ "total_emails")]

/-- `highlights` after the four fixups. -/
theorem getProp_fixupParsed_highlights (o : JsObj) (n : Int) :
    getProp (fixupParsed o n) "highlights" =
      if propTruthy o "highlights" then getProp o "highlights"
      else some (.arr []) := by
  unfold fixupParsed
  rw [getProp_fixupProp_other _ _ _ _ (by decide),
    getProp_fixupProp_self,
    propTruthy_fixupProp_other _ _ _ _ (by decide),
    propTruthy_fixupProp_other _ _ _ _ (by decide)]
  by_cases h : propTruthy o "highlights" <;>
    simp [h,
      getProp_fixupProp_other _ _ _ _ (by decide : ("highlights" : String) ≠ "classification"),
      getProp_fixupProp_other _ _ _ _ (by decide : ("highlights" : String) ≠ "total_emails")]

/-- `summary` after the four fixups. -/
theorem getProp_fixupParsed_summary (o : JsObj) (n : Int) :
    getProp (fixupParsed o n) "summary" =
      if propTruthy o "summary" then getProp o "summary"
      else some (.str "") := by
  unfold fixupParsed
  rw [getProp_fixupProp_self,
    propTruthy_fixupProp_other _ _ _ _ (by decide),
    propTruthy_fixupProp_other _ _ _ _ (by decide),
    propTruthy_fixupProp_other _ _ _ _ (by decide)]
  by_cases h : propTruthy o "summary" <;>
    simp [h,
      getProp_fixupProp_other _ _ _ _ (by decide : ("summary" : String) ≠ "highlights"),
      getProp_fixupProp_other _ _ _ _ (by decide : ("summary" : String) ≠ "classification"),
      getProp_fixupProp_other _ _ _ _ (by decide : ("summary" : String) ≠ "total_emails")]

/-- Keys other than the four required ones are untouched by the fixups. -/
theorem getProp_fixupParsed_other (o : JsObj) (n : Int) (k : String)
    (h1 : k ≠ "total_emails") (h2 : k ≠ "classification")
    (h3 : k ≠ "highlights") (h4 : k ≠ "summary") :
    getProp (fixupParsed o n) k = getProp o k := by
  unfold fixupParsed
  rw [getProp_fixupProp_other _ _ _ _ h4, getProp_fixupProp_other _ _ _ _ h3,
    getProp_fixupProp_other _ _ _ _ h2, getProp_fixupProp_other _ _ _ _ h1]

/-- Follows the claim's words (C1): "non-negative integer". -/
def isNonnegInt : JsVal → Bool
  | .num n => decide (0 ≤ n)
  | _ => false

/-- Follows the claim's words (C1): "four-category integer map" — the
four fixed categories each mapped to a non-negative integer count. -/
def isClassificationMap : JsVal → Bool
  | .obj o =>
      ["positive", "negative", "neutral", "other"].all fun k =>
        match getProp o k with
        | some (.num n) => decide (0 ≤ n)
        | _ => false
  | _ => false

/-- Follows the claim's words (C1): "sequence". -/
def isSeqVal : JsVal → Bool
  | .arr _ => true
  | _ => false

/-- Follows the claim's words (C1): "string". -/
def isStrVal : JsVal → Bool
  | .str _ => true
  | _ => false

/-- Follows the claim's words (C1): all four fields present and
correctly typed (non-negative integer, four-category integer map,
sequence, string). -/
def isWellTypedAnalysisResult (o : JsObj) : Bool :=
  (match getProp o "total_emails" with
   | some v => isNonnegInt v
   | none => false) &&
  (match getProp o "classification" with
   | some v => isClassificationMap v
   | none => false) &&
  (match getProp o "highlights" with
   | some v => isSeqVal v
   | none => false) &&
  (match getProp o "summary" with
   | some v => isStrVal v
   | none => false)

/-- All four required fields are present (whatever their types). -/
def hasAllFields (o : JsObj) : Bool :=
  hasProp o "total_emails" && hasProp o "classification" &&
  hasProp o "highlights" && hasProp o "summary"

/-- The pure fallback is fully well typed when the fallback count is
non-negative. -/
theorem isWellTyped_fallbackResult (s : String) (n : Int) (hn : 0 ≤ n) :
    isWellTypedAnalysisResult (fallbackResult s n) = true := by
  simp [isWellTypedAnalysisResult, fallbackResult, getProp, isNonnegInt,
    isClassificationMap, isSeqVal, isStrVal, defaultClassification, hn]

/-- The fixed-up parse result always carries the four fields. -/
theorem hasAllFields_fixupParsed (o : JsObj) (n : Int) :
    hasAllFields (fixupParsed o n) = true := by
  have ht := getProp_fixupParsed_total o n
  have hc := getProp_fixupParsed_classification o n
  have hh := getProp_fixupParsed_highlights o n
  have hs := getProp_fixupParsed_summary o n
  unfold hasAllFields hasProp
  rw [ht, hc, hh, hs]
  by_cases h1 : propTruthy o "total_emails" <;>
    by_cases h2 : propTruthy o "classification" <;>
      by_cases h3 : propTruthy o "highlights" <;>
        by_cases h4 : propTruthy o "summary" <;>
          simp [h1, h2, h3, h4, propTruthy_isSome]

/-- The pure fallback always carries the four fields. -/
theorem hasAllFields_fallbackResult (s : String) (n : Int) :
    hasAllFields (fallbackResult s n) = true := by
  simp [hasAllFields, hasProp, fallbackResult, getProp]

/-- C1 (amended): `safeParseJson` is total and every result carries all
four fields; the result is either the pure fallback (which is fully
well-typed when the fallback count is non-negative) or the fixed-up
parse result, whose filled-in defaults are well-typed while parsed
truthy fields pass through with whatever type the oracle emitted, so
full well-typedness is not guaranteed on that path (see the
counterexample). -/
theorem C1_repair_total (jsonParse : String → Option JsObj) (s : String)
    (n : Int) (hn : 0 ≤ n) :
    hasAllFields (safeParseJson jsonParse s n) = true
    ∧ isWellTypedAnalysisResult (fallbackResult s n) = true
    ∧ (safeParseJson jsonParse s n = fallbackResult s n
       ∨ ∃ o, (extractJson s).bind jsonParse = some o
           ∧ safeParseJson jsonParse s n = fixupParsed o n) := by
  refine ⟨?_, isWellTyped_fallbackResult s n hn, ?_⟩
  · cases he : extractJson s with
    | none =>
        simp only [safeParseJson, he]
        exact hasAllFields_fallbackResult s n
    | some sub =>
        cases hp : jsonParse sub with
        | none =>
            simp only [safeParseJson, he, hp]
            exact hasAllFields_fallbackResult s n
        | some o =>
            simp only [safeParseJson, he, hp]
            exact hasAllFields_fixupParsed o n
  · cases he : extractJson s with
    | none => exact Or.inl (by simp only [safeParseJson, he])
    | some sub =>
        cases hp : jsonParse sub with
        | none => exact Or.inl (by simp only [safeParseJson, he, hp])
        | some o =>
            exact Or.inr ⟨o, by simp [he, hp],
              by simp only [safeParseJson, he, hp]⟩

/-- Closed instance of `C1_repair_total` (oracle text empty, fallback
count 0): evaluates the conclusion at a concrete input. -/
theorem C1_repair_total_witness :
    hasAllFields (safeParseJson (fun _ => none) "" 0) = true
    ∧ isWellTypedAnalysisResult (fallbackResult "" 0) = true
    ∧ (safeParseJson (fun _ => none) "" 0 = fallbackResult "" 0
       ∨ ∃ o, (extractJson "").bind (fun _ => none) = some o
           ∧ safeParseJson (fun _ => none) "" 0 = fixupParsed o 0) :=
  C1_repair_total (fun _ => none) "" 0 (by decide)

/-- The JavaScript builtin `JSON.parse` evaluated at the single input
`\x7b"total_emails":-3\x7d`: it yields the object with the one
property `total_emails` holding the (integer-valued) number `-3`.
Other inputs are outside this fragment and report failure; the
counterexample below only consults it at this one input. -/
def jsonParseNegTE : String → Option JsObj := fun s =>
  if s = "\x7b\"total_emails\":-3\x7d" then
    some [("total_emails", .num (-3))]
  else none

/-- C1 as stated is false: on the raw text `\x7b"total_emails":-3\x7d`
(well-formed JSON), `safeParseJson` keeps the truthy value `-3`, so the
returned object's `total_emails` is a negative number and the result
is not well-typed in the claim's sense. -/
theorem C1_counterexample :
    jsonParseNegTE "\x7b\"total_emails\":-3\x7d"
      = some [("total_emails", JsVal.num (-3))]
    ∧ isWellTypedAnalysisResult
        (safeParseJson jsonParseNegTE "\x7b\"total_emails\":-3\x7d" 0)
      = false := by
  constructor
  · rfl
  · decide

/-- C8 (amended): when a JSON object is successfully extracted and
parsed, `safeParseJson` returns the fixed-up object; every field that
is present with a truthy value is left unchanged, fields outside the
four required ones are always left unchanged, and each required field
that is missing or falsy (JavaScript falsiness: absent, `null`,
`false`, `0`, `""`) is set to its default (`total_emails` ←
`fallback_count`, `classification` ← all-zero map, `highlights` ←
empty sequence, `summary` ← empty string).  A present-but-falsy field
is overwritten, which is what refutes the claim as stated (see the
counterexample). -/
theorem C8_repair_fill_semantics (jsonParse : String → Option JsObj)
    (s sub : String) (o : JsObj) (n : Int)
    (h1 : extractJson s = some sub) (h2 : jsonParse sub = some o) :
    safeParseJson jsonParse s n = fixupParsed o n
    ∧ (∀ k, propTruthy o k = true →
        getProp (fixupParsed o n) k = getProp o k)
    ∧ (∀ k, k ≠ "total_emails" → k ≠ "classification" →
        k ≠ "highlights" → k ≠ "summary" →
        getProp (fixupParsed o n) k = getProp o k)
    ∧ (propTruthy o "total_emails" = false →
        getProp (fixupParsed o n) "total_emails" = some (.num n))
    ∧ (propTruthy o "classification" = false →
        getProp (fixupParsed o n) "classification"
          = some defaultClassification)
    ∧ (propTruthy o "highlights" = false →
        getProp (fixupParsed o n) "highlights" = some (.arr []))
    ∧ (propTruthy o "summary" = false →
        getProp (fixupParsed o n) "summary" = some (.str "")) := by
  refine ⟨by simp only [safeParseJson, h1, h2], ?_, ?_, ?_, ?_, ?_, ?_⟩
  · intro k hk
    by_cases e1 : k = "total_emails"
    · subst e1; rw [getProp_fixupParsed_total, if_pos hk]
    by_cases e2 : k = "classification"
    · subst e2; rw [getProp_fixupParsed_classification, if_pos hk]
    by_cases e3 : k = "highlights"
    · subst e3; rw [getProp_fixupParsed_highlights, if_pos hk]
    by_cases e4 : k = "summary"
    · subst e4; rw [getProp_fixupParsed_summary, if_pos hk]
    exact getProp_fixupParsed_other o n k e1 e2 e3 e4
  · exact fun k e1 e2 e3 e4 => getProp_fixupParsed_other o n k e1 e2 e3 e4
  · intro hf; rw [getProp_fixupParsed_total]; simp [hf]
  · intro hf; rw [getProp_fixupParsed_classification]; simp [hf]
  · intro hf; rw [getProp_fixupParsed_highlights]; simp [hf]
  · intro hf; rw [getProp_fixupParsed_summary]; simp [hf]

/-- The JavaScript builtin `JSON.parse` evaluated at the single input
`\x7b"a":1\x7d`: the object with the one property `a` holding `1`.
Used only by the witness below, only at this input. -/
def jsonParseW8 : String → Option JsObj := fun s =>
  if s = "\x7b\"a\":1\x7d" then some [("a", .num 1)] else none

/-- Closed instance of `C8_repair_fill_semantics` at a concrete parsed
input. -/
theorem C8_repair_fill_semantics_witness :
    safeParseJson jsonParseW8 "\x7b\"a\":1\x7d" 7
      = fixupParsed [("a", JsVal.num 1)] 7 :=
  (C8_repair_fill_semantics jsonParseW8 "\x7b\"a\":1\x7d" "\x7b\"a\":1\x7d"
    [("a", JsVal.num 1)] 7 (by decide) (by rfl)).1

/-- The JavaScript builtin `JSON.parse` evaluated at the single input
`\x7b"total_emails":0\x7d`: the object with the one property
`total_emails` holding `0`.  Used only by the counterexample below,
only at this input. -/
def jsonParseZeroTE : String → Option JsObj := fun s =>
  if s = "\x7b\"total_emails\":0\x7d" then some [("total_emails", .num 0)]
  else none

/-- C8 as stated is false: on the raw text `\x7b"total_emails":0\x7d`
the field `total_emails` is present in the parsed object (with value
`0`), yet `safeParseJson` with fallback count `5` overwrites it with
`5` — a present field is not left unchanged. -/
theorem C8_counterexample :
    jsonParseZeroTE "\x7b\"total_emails\":0\x7d"
      = some [("total_emails", JsVal.num 0)]
    ∧ getProp
        (safeParseJson jsonParseZeroTE "\x7b\"total_emails\":0\x7d" 5)
        "total_emails"
      = some (JsVal.num 5) := by
  constructor
  · rfl
  · rfl

/-- Concatenating the chunks reproduces the input. -/
theorem chunkArray_join (l : List α) (s : Nat) :
    1 ≤ s → (chunkArray l s).join = l := by
  induction l, s using chunkArray.induct with
  | case1 l => intro hs; omega
  | case2 s => intro hs; simp [chunkArray]
  | case3 x xs s ih =>
      intro hs
      rw [chunkArray]
      show (x :: xs).take (s + 1)
          ++ (chunkArray ((x :: xs).drop (s + 1)) (s + 1)).join = x :: xs
      rw [ih (by omega), List.take_append_drop]

/-- `chunkArray` yields `[]` only on an empty input (or size 0). -/
theorem chunkArray_eq_nil_iff (l : List α) (s : Nat) :
    chunkArray l s = [] ↔ (l = [] ∨ s = 0) := by
  cases l <;> cases s <;> simp [chunkArray]

/-- Every chunk has at most `s` elements. -/
theorem chunkArray_mem_length_le (l : List α) (s : Nat) :
    ∀ b ∈ chunkArray l s, b.length ≤ s := by
  induction l, s using chunkArray.induct with
  | case1 l => simp [chunkArray]
  | case2 s => simp [chunkArray]
  | case3 x xs s ih =>
      intro b hb
      rw [chunkArray] at hb
      rcases List.mem_cons.mp hb with h | h
      · subst h
        simpa using List.length_take_le (s + 1) (x :: xs)
      · exact ih b h

/-- Every chunk except possibly the last has exactly `s` elements. -/
theorem chunkArray_dropLast_length (l : List α) (s : Nat) :
    ∀ b ∈ (chunkArray l s).dropLast, b.length = s := by
  induction l, s using chunkArray.induct with
  | case1 l => simp [chunkArray]
  | case2 s => simp [chunkArray]
  | case3 x xs s ih =>
      intro b hb
      rw [chunkArray] at hb
      cases hr : chunkArray ((x :: xs).drop (s + 1)) (s + 1) with
      | nil => rw [hr] at hb; simp at hb
      | cons r rs =>
          rw [hr, List.dropLast_cons_of_ne_nil (by simp)] at hb
          rcases List.mem_cons.mp hb with h | h
          · subst h
            have hd : (x :: xs).drop (s + 1) ≠ [] := by
              intro he
              rw [he] at hr
              simp [chunkArray] at hr
            have hlen : s + 1 ≤ (x :: xs).length := by
              by_contra hc
              exact hd (List.drop_eq_nil_of_le (by omega))
            simp only [List.length_take, List.length_cons] at hlen ⊢
            omega
          · exact ih b (by rw [hr]; exact h)

/-- C7: `chunkArray` (a pure function of its arguments) is the correct
chunker for every size `s ≥ 1`: the chunks concatenate back to the
input (nothing dropped or duplicated), the chunk count is
`ceil(n / s)`, every chunk has at most `s` elements, every chunk but
possibly the last has exactly `s` elements, and the empty input yields
no chunks. -/
theorem C7_chunker_correct (l : List α) (s : Nat) (hs : 1 ≤ s) :
    (chunkArray l s).join = l
    ∧ (chunkArray l s).length = (l.length + s - 1) / s
    ∧ (∀ b ∈ chunkArray l s, b.length ≤ s)
    ∧ (∀ b ∈ (chunkArray l s).dropLast, b.length = s)
    ∧ chunkArray ([] : List α) s = [] :=
  ⟨chunkArray_join l s hs, chunkArray_length l s,
   chunkArray_mem_length_le l s, chunkArray_dropLast_length l s,
   (chunkArray_eq_nil_iff [] s).mpr (Or.inl rfl)⟩

/-- Closed instance of `C7_chunker_correct`: five records, size 2. -/
theorem C7_chunker_correct_witness :
    (chunkArray [10, 20, 30, 40, 50] 2).join = [10, 20, 30, 40, 50]
    ∧ (chunkArray [10, 20, 30, 40, 50] 2).length = (5 + 2 - 1) / 2
    ∧ (∀ b ∈ chunkArray [10, 20, 30, 40, 50] 2, b.length ≤ 2)
    ∧ (∀ b ∈ (chunkArray [10, 20, 30, 40, 50] 2).dropLast, b.length = 2)
    ∧ chunkArray ([] : List Nat) 2 = [] := by
  have h := C7_chunker_correct [10, 20, 30, 40, 50] 2 (by decide)
  simpa using h

/-- The base case of `mergeReports` literally: a one-element list is
returned unchanged, with the call counter untouched and no round run. -/
theorem mergeReports_single (jsonParse : String → Option JsObj)
    (script : Nat → Option String) (x : JsObj) (c : Nat) :
    mergeReports jsonParse script [x] c = ⟨some x, c, 0⟩ := by
  rw [mergeReports]
  simp

/-- `mergeReports` on the empty list: one vacuous round over zero
groups, no oracle call, and the `undefined` result (`merged[0]` of the
empty `merged`). -/
theorem mergeReports_nil (jsonParse : String → Option JsObj)
    (script : Nat → Option String) (c : Nat) :
    mergeReports jsonParse script [] c = ⟨none, c, 1⟩ := by
  rw [mergeReports]
  simp [chunkArray, mergeGroups]

/-- The first chunk is `l.take s`. -/
theorem chunkArray_head (l : List α) (s : Nat) :
    l ≠ [] → 1 ≤ s → (chunkArray l s).head? = some (l.take s) := by
  induction l, s using chunkArray.induct with
  | case1 l => intro _ hs; omega
  | case2 s => intro h _; exact absurd rfl h
  | case3 x xs s ih => intro _ _; rw [chunkArray]; rfl

/-- Taking at least one element keeps the head. -/
theorem headI_take [Inhabited α] (l : List α) (s : Nat) (hl : l ≠ [])
    (hs : 1 ≤ s) : (l.take s).headI = l.headI := by
  cases l with
  | nil => exact absurd rfl hl
  | cons x xs =>
      cases s with
      | zero => omega
      | succ s => rfl

/-- When every oracle call fails, each merge group degrades to its
first member. -/
theorem mergeGroups_allFail (jsonParse : String → Option JsObj)
    (script : Nat → Option String) (hs : ∀ i, script i = none) :
    ∀ (gs : List (List JsObj)) (c : Nat),
      (mergeGroups jsonParse script gs c).1 = gs.map List.headI
  | [], _ => rfl
  | g :: gs, c => by
      simp [mergeGroups, mergeGroup, hs c,
        mergeGroups_allFail jsonParse script hs gs (c + 1)]

/-- When every oracle call fails, `mergeReports` returns the first
input (or `undefined` on an empty input). -/
theorem mergeReports_allFail (jsonParse : String → Option JsObj)
    (script : Nat → Option String) (hs : ∀ i, script i = none) :
    ∀ (n : Nat) (l : List JsObj) (c : Nat), l.length = n →
      (mergeReports jsonParse script l c).result = l.head? := by
  intro n
  induction n using Nat.strong_induction_on with
  | _ n ih =>
    intro l c hl
    rw [mergeReports]
    by_cases h1 : l.length = 1
    · simp [h1]
    · simp only [h1, dite_false]
      cases l with
      | nil => simp [chunkArray, mergeGroups]
      | cons x xs =>
          have hg1 : (mergeGroups jsonParse script
              (chunkArray (x :: xs) 5) c).1
              = (chunkArray (x :: xs) 5).map List.headI :=
            mergeGroups_allFail jsonParse script hs _ c
          have hhead : ((chunkArray (x :: xs) 5).map List.headI).head?
              = some x := by
            rw [List.head?_map,
              chunkArray_head (x :: xs) 5 (by simp) (by omega)]
            simp [headI_take (x :: xs) 5 (by simp) (by omega)]
          by_cases h2 : 1 < (mergeGroups jsonParse script
              (chunkArray (x :: xs) 5) c).1.length
          · simp only [h2, dite_true]
            have hlt : (mergeGroups jsonParse script
                (chunkArray (x :: xs) 5) c).1.length < n := by
              rw [mergeGroups_length, chunkArray_length] at h2 ⊢
              omega
            rw [ih _ hlt _ _ rfl, hg1, hhead]
            rfl
          · simp only [h2, dite_false]
            rw [hg1] at h2 ⊢
            rw [hhead]
            rfl

/-- A non-empty input to `mergeReports` always yields a defined
(non-`undefined`) result. -/
theorem mergeReports_result_isSome (jsonParse : String → Option JsObj)
    (script : Nat → Option String) :
    ∀ (n : Nat) (l : List JsObj) (c : Nat), l.length = n → l ≠ [] →
      (mergeReports jsonParse script l c).result.isSome = true := by
  intro n
  induction n using Nat.strong_induction_on with
  | _ n ih =>
    intro l c hl hne
    rw [mergeReports]
    by_cases h1 : l.length = 1
    · simp only [h1, dite_true]
      cases l with
      | nil => exact absurd rfl hne
      | cons x xs => simp
    · simp only [h1, dite_false]
      have hn2 : 2 ≤ n := by
        have : l.length ≠ 0 := fun e => hne (List.eq_nil_of_length_eq_zero e)
        omega
      have hglen : (mergeGroups jsonParse script (chunkArray l 5) c).1.length
          = (n + 4) / 5 := by
        rw [mergeGroups_length, chunkArray_length, hl]
        omega
      by_cases h2 : 1 < (mergeGroups jsonParse script
          (chunkArray l 5) c).1.length
      · simp only [h2, dite_true]
        have hlt : (mergeGroups jsonParse script
            (chunkArray l 5) c).1.length < n := by
          rw [hglen]; omega
        exact ih _ hlt _ _ rfl
          (fun e => by rw [e] at h2; simp at h2)
      · simp only [h2, dite_false]
        have hone : (mergeGroups jsonParse script
            (chunkArray l 5) c).1.length = 1 := by
          rw [hglen]; rw [hglen] at h2; omega
        cases hgm : (mergeGroups jsonParse script (chunkArray l 5) c).1 with
        | nil => rw [hgm] at hone; simp at hone
        | cons y ys => simp

/-- The number of grouping rounds `mergeReports` executes on `n ≥ 1`
inputs is exactly `ceil(log_5 n)`. -/
theorem mergeReports_rounds (jsonParse : String → Option JsObj)
    (script : Nat → Option String) :
    ∀ (n : Nat) (l : List JsObj) (c : Nat), l.length = n → 1 ≤ n →
      (mergeReports jsonParse script l c).rounds = Nat.clog 5 n := by
  intro n
  induction n using Nat.strong_induction_on with
  | _ n ih =>
    intro l c hl hn
    rw [mergeReports]
    by_cases h1 : l.length = 1
    · have hn1 : n = 1 := by rw [← hl, h1]
      simp [h1, hn1, Nat.clog_one_right]
    · simp only [h1, dite_false]
      have hn2 : 2 ≤ n := by
        rw [hl] at h1; omega
      have hglen : (mergeGroups jsonParse script (chunkArray l 5) c).1.length
          = (n + 4) / 5 := by
        rw [mergeGroups_length, chunkArray_length, hl]
        omega
      have hclog : Nat.clog 5 n = Nat.clog 5 ((n + 4) / 5) + 1 := by
        have e : n + 5 - 1 = n + 4 := rfl
        rw [Nat.clog_of_two_le (by norm_num) hn2, e]
      by_cases h2 : 1 < (mergeGroups jsonParse script
          (chunkArray l 5) c).1.length
      · simp only [h2, dite_true]
        have hlt : (mergeGroups jsonParse script
            (chunkArray l 5) c).1.length < n := by
          rw [hglen]; omega
        have h1le : 1 ≤ (mergeGroups jsonParse script
            (chunkArray l 5) c).1.length := by omega
        rw [ih _ hlt _ _ rfl h1le, hglen, hclog]
      · simp only [h2, dite_false]
        have hone : (n + 4) / 5 = 1 := by
          rw [hglen] at h2; omega
        rw [hclog, hone, Nat.clog_one_right]

/-- C9: `mergeReports` on a single-element list is the identity — the
element is returned unchanged, the oracle call counter is untouched
(no oracle call) and no grouping round runs (so no repair is applied
either: the result is the input element itself). -/
theorem C9_merge_identity (jsonParse : String → Option JsObj)
    (script : Nat → Option String) (x : JsObj) (c : Nat) :
    (mergeReports jsonParse script [x] c).result = some x
    ∧ (mergeReports jsonParse script [x] c).callIdx = c
    ∧ (mergeReports jsonParse script [x] c).rounds = 0 := by
  rw [mergeReports_single]
  exact ⟨rfl, rfl, rfl⟩

/-- C6: each merge round strictly shrinks the worklist — for any
group size `s ≥ 2` (the source uses `MERGE_BATCH_SIZE = 5`) a list of
`n ≥ 2` results produces `ceil(n/s) < n` groups — hence `mergeReports`
terminates (it is a total function of this development), and on `n ≥ 1`
inputs it runs exactly `ceil(log_5 n)` grouping rounds. -/
theorem C6_merge_termination :
    (∀ (s : Nat) (l : List JsObj), 2 ≤ s → 2 ≤ l.length →
      (chunkArray l s).length < l.length)
    ∧ (∀ (jsonParse : String → Option JsObj)
        (script : Nat → Option String) (l : List JsObj) (c : Nat),
        1 ≤ l.length →
        (mergeReports jsonParse script l c).rounds
          = Nat.clog 5 l.length) := by
  constructor
  · intro s l hs hl
    rw [chunkArray_length, Nat.div_lt_iff_lt_mul (by omega)]
    have h := Nat.add_le_mul hl hs
    omega
  · intro jsonParse script l c h1
    exact mergeReports_rounds jsonParse script l.length l c rfl h1

/-- Closed instance of `C6_merge_termination`: two empty objects at
fan-in 2, and a singleton run of `mergeReports`. -/
theorem C6_merge_termination_witness :
    (chunkArray [([] : JsObj), []] 2).length < [([] : JsObj), []].length
    ∧ (mergeReports (fun _ => none) (fun _ => none) [([] : JsObj)] 0).rounds
        = Nat.clog 5 [([] : JsObj)].length :=
  ⟨C6_merge_termination.1 2 [[], []] (by decide) (by decide),
   C6_merge_termination.2 (fun _ => none) (fun _ => none) [[]] 0 (by decide)⟩

/-- Writing a balance and reading it back. -/
theorem getBalance_setBalance_self (ps : Profiles) (u : String) (v b : Int)
    (hb : getBalance ps u = some b) :
    getBalance (setBalance ps u v) u = some v := by
  induction ps with
  | nil => simp [getBalance] at hb
  | cons p rest ih =>
      by_cases h : p.1 = u
      · simp [getBalance, setBalance, h]
      · rw [getBalance, if_neg h] at hb
        have hih := ih hb
        rw [setBalance] at hih
        simp [getBalance, setBalance, h, hih]

/-- A sufficiently funded account is charged exactly the amount, on
either credit path. -/
theorem creditStep_ok (rt : Bool) (ps : Profiles) (u : String)
    (needed b : Int) (hb : getBalance ps u = some b) (h : needed ≤ b) :
    creditStep rt ps u needed
      = (.ok (b - needed), setBalance ps u (b - needed)) := by
  cases rt <;>
    simp [creditStep, decrementCredits, hb, h, not_lt.mpr h]

/-- An underfunded account is rejected with the balance untouched, on
either credit path. -/
theorem creditStep_insufficient (rt : Bool) (ps : Profiles) (u : String)
    (needed b : Int) (hb : getBalance ps u = some b) (h : b < needed) :
    creditStep rt ps u needed = (.error .notEnoughCredits, ps) := by
  cases rt <;>
    simp [creditStep, decrementCredits, hb, h, not_le.mpr h]

/-- Any failing credit step leaves the account table unchanged. -/
theorem creditStep_error_preserves (rt : Bool) (ps : Profiles) (u : String)
    (needed : Int) (e : CreditErr)
    (h : (creditStep rt ps u needed).1 = .error e) :
    (creditStep rt ps u needed).2 = ps := by
  cases rt with
  | true =>
      cases hg : getBalance ps u with
      | none => simp [creditStep, hg]
      | some credits =>
          by_cases hlt : credits < needed
          · simp [creditStep, hg, hlt]
          · simp [creditStep, hg, hlt] at h
  | false =>
      cases hg : getBalance ps u with
      | none => simp [creditStep, decrementCredits, hg]
      | some credits =>
          by_cases hle : needed ≤ credits
          · simp [creditStep, decrementCredits, hg, hle] at h
          · simp [creditStep, decrementCredits, hg, hle]

/-- A successful credit step on a known balance charged exactly the
amount. -/
theorem creditStep_ok_inv (rt : Bool) (ps : Profiles) (u : String)
    (needed b nb : Int) (hb : getBalance ps u = some b)
    (h : (creditStep rt ps u needed).1 = .ok nb) :
    nb = b - needed
    ∧ (creditStep rt ps u needed).2 = setBalance ps u (b - needed) := by
  by_cases hle : needed ≤ b
  · rw [creditStep_ok rt ps u needed b hb hle] at h ⊢
    simp at h
    exact ⟨h.symm, rfl⟩
  · rw [creditStep_insufficient rt ps u needed b hb (by omega)] at h
    simp at h

/-- The merge inputs collected by the batch loop are exactly the
repaired results of the batches whose mini-insert succeeded, in batch
order. -/
theorem runBatches_parts (jsonParse : String → Option JsObj)
    (script : Nat → Option String) (insertOk : Nat → Bool) (uid : String) :
    ∀ (batches : List (List Email)) (i : Nat) (acc : BatchAcc),
      (runBatches jsonParse script insertOk uid batches i acc).parts
        = acc.parts
          ++ ((batches.enumFrom i).filter (fun p => insertOk p.1)).map
              (fun p => batchParsed jsonParse script p.1 p.2)
  | [], i, acc => by simp [runBatches, List.enumFrom]
  | b :: rest, i, acc => by
      rw [runBatches,
        runBatches_parts jsonParse script insertOk uid rest (i + 1) _]
      by_cases h : insertOk i
      · simp [processBatch, h, List.enumFrom, List.filter_cons]
      · simp [processBatch, h, List.enumFrom, List.filter_cons]

/-- The provenance ids collected by the batch loop are exactly one per
successful mini-insert. -/
theorem runBatches_miniIds_length (jsonParse : String → Option JsObj)
    (script : Nat → Option String) (insertOk : Nat → Bool) (uid : String) :
    ∀ (batches : List (List Email)) (i : Nat) (acc : BatchAcc),
      (runBatches jsonParse script insertOk uid batches i acc).miniIds.length
        = acc.miniIds.length
          + ((batches.enumFrom i).filter (fun p => insertOk p.1)).length
  | [], i, acc => by simp [runBatches, List.enumFrom]
  | b :: rest, i, acc => by
      rw [runBatches,
        runBatches_miniIds_length jsonParse script insertOk uid rest (i + 1) _]
      by_cases h : insertOk i
      · simp [processBatch, h, List.enumFrom, List.filter_cons]
        omega
      · simp [processBatch, h, List.enumFrom, List.filter_cons]

/-- If the indexed filter over a batch enumeration is empty, the
predicate is false at every index covered. -/
theorem allFalse_of_filter_enumFrom_nil (insertOk : Nat → Bool) :
    ∀ (batches : List (List Email)) (i : Nat),
      (batches.enumFrom i).filter (fun p => insertOk p.1) = [] →
      ∀ j, j < batches.length → insertOk (i + j) = false
  | [], _ => by intro _ j hj; simp at hj
  | b :: rest, i => by
      intro h j hj
      by_cases hok : insertOk i
      · simp [List.enumFrom, List.filter_cons, hok] at h
      · simp only [List.enumFrom, List.filter_cons, hok] at h
        rcases j with _ | j
        · simpa using hok
        · have e : i + (j + 1) = (i + 1) + j := by omega
          rw [e]
          exact allFalse_of_filter_enumFrom_nil insertOk rest (i + 1)
            (by simpa using h) j (by simpa using hj)

/-- Evaluation of `/analyzev2` past a successful credit reservation:
on a valid request against an account with balance `b` at least the
needed amount, the run charges `b - amount`, executes the batch loop
and the merge, and the response depends only on the merge result and
the final insert. -/
theorem analyzev2_of_funded (w : World) (uid : String)
    (emails : List Email) (b : Int) (hu : uid ≠ "") (he : emails ≠ [])
    (hb : getBalance w.profiles uid = some b)
    (hle : (emails.length : Int) * w.creditsPerEmail ≤ b) :
    analyzev2 w uid emails =
      (let needed : Int := emails.length * w.creditsPerEmail
       let ps := setBalance w.profiles uid (b - needed)
       let acc := runBatches w.jsonParse w.script w.miniInsertOk uid
         (chunkArray emails 50) 0 ⟨[], [], [], w.nextReportId⟩
       let mo := mergeReports w.jsonParse w.script acc.parts
         (chunkArray emails 50).length
       match mo.result with
       | none =>
           { outcome := .internalError, profiles := ps, rows := acc.rows,
             oracleCalls := mo.callIdx }
       | some finalJson =>
           if w.finalInsertOk then
             { outcome := .ok (b - needed) emails.length acc.miniIds
                 acc.nextId finalJson
               profiles := ps
               rows := acc.rows
                 ++ [finalRow uid acc.nextId finalJson acc.miniIds]
               oracleCalls := mo.callIdx }
           else
             { outcome := .finalSaveFailed, profiles := ps,
               rows := acc.rows, oracleCalls := mo.callIdx }) := by
  have hval : ¬(uid = "" ∨ emails.isEmpty = true) := by
    rintro (h | h)
    · exact hu h
    · exact he (List.isEmpty_iff.mp h)
  have hgb := getBalance_setBalance_self w.profiles uid
    (b - (emails.length : Int) * w.creditsPerEmail) b hb
  unfold analyzev2
  rw [if_neg hval]
  simp only [creditStep_ok w.rpcThrows w.profiles uid
    ((emails.length : Int) * w.creditsPerEmail) b hb hle]
  cases hmo : (mergeReports w.jsonParse w.script
      (runBatches w.jsonParse w.script w.miniInsertOk uid
        (chunkArray emails 50) 0 ⟨[], [], [], w.nextReportId⟩).parts
      (chunkArray emails 50).length).result with
  | none => simp [hmo]
  | some fj => by_cases hf : w.finalInsertOk <;> simp [hmo, hf, hgb]

/-- After a funded run the account table holds exactly `old - amount`,
whatever the oracle and the report store did. -/
theorem analyzev2_profiles_funded (w : World) (uid : String)
    (emails : List Email) (b : Int) (hu : uid ≠ "") (he : emails ≠ [])
    (hb : getBalance w.profiles uid = some b)
    (hle : (emails.length : Int) * w.creditsPerEmail ≤ b) :
    (analyzev2 w uid emails).profiles
      = setBalance w.profiles uid
          (b - (emails.length : Int) * w.creditsPerEmail) := by
  rw [analyzev2_of_funded w uid emails b hu he hb hle]
  cases hmo : (mergeReports w.jsonParse w.script
      (runBatches w.jsonParse w.script w.miniInsertOk uid
        (chunkArray emails 50) 0 ⟨[], [], [], w.nextReportId⟩).parts
      (chunkArray emails 50).length).result with
  | none => simp [hmo]
  | some fj => by_cases hf : w.finalInsertOk <;> simp [hmo, hf]

/-- When every mini-insert fails on a funded run, the merge input is
empty, the merge returns `undefined`, and the route answers the
generic 500 of the outer catch. -/
theorem analyzev2_allMiniFail (w : World) (uid : String)
    (emails : List Email) (b : Int) (hu : uid ≠ "") (he : emails ≠ [])
    (hb : getBalance w.profiles uid = some b)
    (hle : (emails.length : Int) * w.creditsPerEmail ≤ b)
    (hall : ∀ i, w.miniInsertOk i = false) :
    (analyzev2 w uid emails).outcome = .internalError := by
  have hparts : (runBatches w.jsonParse w.script w.miniInsertOk uid
      (chunkArray emails 50) 0 ⟨[], [], [], w.nextReportId⟩).parts = [] := by
    rw [runBatches_parts]
    simp [List.filter_eq_nil_iff, hall]
  rw [analyzev2_of_funded w uid emails b hu he hb hle]
  simp [hparts, mergeReports_nil]

/-- C2: reserving more than the balance makes `/analyzev2` fail with
the 402 "Not enough credits", leaves the account table unchanged and
issues zero oracle calls; reserving at most the balance succeeds and
charges exactly `amount = record_count * cost_per_record`, the new
balance being `old - amount` — on both the rpc path and the manual
fallback path (`decrement_credits` itself modelled from the spec, see
`decrementCredits`). -/
theorem C2_credit_ledger (w : World) (uid : String) (emails : List Email)
    (b : Int) (hu : uid ≠ "") (he : emails ≠ [])
    (hb : getBalance w.profiles uid = some b) :
    (b < (emails.length : Int) * w.creditsPerEmail →
       (analyzev2 w uid emails).outcome = .notEnoughCredits
       ∧ (analyzev2 w uid emails).profiles = w.profiles
       ∧ (analyzev2 w uid emails).oracleCalls = 0)
    ∧ ((emails.length : Int) * w.creditsPerEmail ≤ b →
       (creditStep w.rpcThrows w.profiles uid
           ((emails.length : Int) * w.creditsPerEmail)).1
         = .ok (b - (emails.length : Int) * w.creditsPerEmail)
       ∧ getBalance
           (creditStep w.rpcThrows w.profiles uid
             ((emails.length : Int) * w.creditsPerEmail)).2 uid
         = some (b - (emails.length : Int) * w.creditsPerEmail)) := by
  have hval : ¬(uid = "" ∨ emails.isEmpty = true) := by
    rintro (h | h)
    · exact hu h
    · exact he (List.isEmpty_iff.mp h)
  constructor
  · intro hlt
    have hcs := creditStep_insufficient w.rpcThrows w.profiles uid
      ((emails.length : Int) * w.creditsPerEmail) b hb hlt
    refine ⟨?_, ?_, ?_⟩ <;>
      · unfold analyzev2
        rw [if_neg hval]
        simp [hcs]
  · intro hle
    rw [creditStep_ok w.rpcThrows w.profiles uid
      ((emails.length : Int) * w.creditsPerEmail) b hb hle]
    exact ⟨rfl, getBalance_setBalance_self w.profiles uid _ b hb⟩

/-- The spec's scenario account: balance 5, cost-per-record 1. -/
def wC2 : World :=
  ⟨[("u", 5)], false, fun _ => none, fun _ => true, true, 1, 1,
   fun _ => none⟩

/-- Ten identical records. -/
def emailsTen : List Email := List.replicate 10 ⟨"f", "s", "b"⟩

/-- Closed instance of `C2_credit_ledger`: the spec scenario (balance
5, 10 records at cost 1) is rejected with the balance untouched and no
oracle call. -/
theorem C2_credit_ledger_witness :
    (analyzev2 wC2 "u" emailsTen).outcome = .notEnoughCredits
    ∧ (analyzev2 wC2 "u" emailsTen).profiles = [("u", 5)]
    ∧ (analyzev2 wC2 "u" emailsTen).oracleCalls = 0 :=
  (C2_credit_ledger wC2 "u" emailsTen 5 (by decide)
    (by simp [emailsTen]) rfl).1 (by norm_num [emailsTen, wC2])

/-- C10: `mergeReports` on the empty list returns the JavaScript
`undefined` (`merged[0]` of an empty `merged`), not a well-formed
result; and this case is reached by `/analyzev2` whenever no
mini-insert succeeds on a funded run, because a batch result enters
the merge input only after a successful insert — the route then
answers the generic 500 of the outer catch. -/
theorem C10_merge_empty_undefined :
    (∀ (jsonParse : String → Option JsObj) (script : Nat → Option String)
        (c : Nat), (mergeReports jsonParse script [] c).result = none)
    ∧ (∀ (w : World) (uid : String) (emails : List Email) (b : Int),
        uid ≠ "" → emails ≠ [] →
        getBalance w.profiles uid = some b →
        (emails.length : Int) * w.creditsPerEmail ≤ b →
        (∀ i, w.miniInsertOk i = false) →
        (analyzev2 w uid emails).outcome = .internalError) := by
  constructor
  · intro jsonParse script c
    rw [mergeReports_nil]
  · intro w uid emails b hu he hb hle hall
    exact analyzev2_allMiniFail w uid emails b hu he hb hle hall

/-- The environment for the empty-merge run: one funded account, every
mini-insert failing. -/
def wC10 : World :=
  ⟨[("u", 100)], false, fun _ => none, fun _ => false, true, 1, 1,
   fun _ => none⟩

/-- One record. -/
def emailsOne : List Email := [⟨"f", "s", "b"⟩]

/-- Closed instance of `C10_merge_empty_undefined`. -/
theorem C10_merge_empty_undefined_witness :
    (mergeReports (fun _ => none) (fun _ => none) [] 0).result = none
    ∧ (analyzev2 wC10 "u" emailsOne).outcome = .internalError :=
  ⟨C10_merge_empty_undefined.1 (fun _ => none) (fun _ => none) 0,
   C10_merge_empty_undefined.2 wC10 "u" emailsOne 100 (by decide)
     (by simp [emailsOne]) rfl (by norm_num [emailsOne, wC10])
     (fun i => rfl)⟩

/-- C4 (amended): on the pre-charge failure paths (invalid request,
insufficient credits, unknown account) the account table is unchanged;
on every post-charge path (final report delivered, final save failed,
or the generic internal error) the charge has been applied exactly
once, the balance reading `old - amount`; and the internal error —
the one caller-visible failure outside the
`InsufficientCredits | AccountNotFound | StorageError` taxonomy —
arises only when every mini-insert of the run failed. -/
theorem C4_analyze_error_contract (w : World) (uid : String)
    (emails : List Email) (b : Int)
    (hb : getBalance w.profiles uid = some b) :
    ((analyzev2 w uid emails).outcome = .badRequest
       ∨ (analyzev2 w uid emails).outcome = .notEnoughCredits
       ∨ (analyzev2 w uid emails).outcome = .userNotFound →
      (analyzev2 w uid emails).profiles = w.profiles)
    ∧ ((analyzev2 w uid emails).outcome = .finalSaveFailed
       ∨ (analyzev2 w uid emails).outcome = .internalError
       ∨ (∃ cl te ids fid fr,
            (analyzev2 w uid emails).outcome = .ok cl te ids fid fr) →
      getBalance (analyzev2 w uid emails).profiles uid
        = some (b - (emails.length : Int) * w.creditsPerEmail))
    ∧ ((analyzev2 w uid emails).outcome = .internalError →
      ∀ i, i < (chunkArray emails 50).length → w.miniInsertOk i = false) := by
  by_cases hval : uid = "" ∨ emails.isEmpty = true
  · have h : analyzev2 w uid emails
        = ⟨.badRequest, w.profiles, [], 0⟩ := by
      unfold analyzev2
      rw [if_pos hval]
    rw [h]
    refine ⟨fun _ => rfl, ?_, ?_⟩
    · rintro (h2 | h2 | ⟨cl, te, ids, fid, fr, h2⟩) <;> simp at h2
    · intro h2; simp at h2
  · have hu : uid ≠ "" := fun e => hval (Or.inl e)
    have he : emails ≠ [] := fun e => hval (Or.inr (by simp [e]))
    by_cases hle : (emails.length : Int) * w.creditsPerEmail ≤ b
    · have hgb := getBalance_setBalance_self w.profiles uid
        (b - (emails.length : Int) * w.creditsPerEmail) b hb
      rw [analyzev2_of_funded w uid emails b hu he hb hle]
      cases hmo : (mergeReports w.jsonParse w.script
          (runBatches w.jsonParse w.script w.miniInsertOk uid
            (chunkArray emails 50) 0 ⟨[], [], [], w.nextReportId⟩).parts
          (chunkArray emails 50).length).result with
      | none =>
          have hparts : (runBatches w.jsonParse w.script w.miniInsertOk uid
              (chunkArray emails 50) 0
              ⟨[], [], [], w.nextReportId⟩).parts = [] := by
            by_contra hne
            have hs := mergeReports_result_isSome w.jsonParse w.script
              (runBatches w.jsonParse w.script w.miniInsertOk uid
                (chunkArray emails 50) 0
                ⟨[], [], [], w.nextReportId⟩).parts.length
              (runBatches w.jsonParse w.script w.miniInsertOk uid
                (chunkArray emails 50) 0
                ⟨[], [], [], w.nextReportId⟩).parts
              (chunkArray emails 50).length rfl hne
            rw [hmo] at hs
            simp at hs
          have hfilter : ((chunkArray emails 50).enumFrom 0).filter
              (fun p => w.miniInsertOk p.1) = [] := by
            rw [runBatches_parts] at hparts
            simp only [List.nil_append, List.map_eq_nil_iff] at hparts
            exact hparts
          refine ⟨?_, ?_, ?_⟩
          · rintro (h2 | h2 | h2) <;> simp [hmo] at h2
          · intro _
            simp [hmo, hgb]
          · intro _ i hi
            have := allFalse_of_filter_enumFrom_nil w.miniInsertOk
              (chunkArray emails 50) 0 hfilter i hi
            simpa using this
      | some fj =>
          by_cases hf : w.finalInsertOk
          · refine ⟨?_, ?_, ?_⟩
            · rintro (h2 | h2 | h2) <;> simp [hmo, hf] at h2
            · intro _
              simp [hmo, hf, hgb]
            · intro h2
              simp [hmo, hf] at h2
          · refine ⟨?_, ?_, ?_⟩
            · rintro (h2 | h2 | h2) <;> simp [hmo, hf] at h2
            · intro _
              simp [hmo, hf, hgb]
            · intro h2
              simp [hmo, hf] at h2
    · have hlt : b < (emails.length : Int) * w.creditsPerEmail :=
        not_le.mp hle
      have hcs := creditStep_insufficient w.rpcThrows w.profiles uid
        ((emails.length : Int) * w.creditsPerEmail) b hb hlt
      have h : analyzev2 w uid emails
          = ⟨.notEnoughCredits, w.profiles, [], 0⟩ := by
        unfold analyzev2
        rw [if_neg hval]
        simp [hcs]
      rw [h]
      refine ⟨fun _ => rfl, ?_, ?_⟩
      · rintro (h2 | h2 | ⟨cl, te, ids, fid, fr, h2⟩) <;> simp at h2
      · intro h2; simp at h2

/-- The environment refuting C4 as stated: a funded account, every
mini-insert failing, the oracle irrelevant. -/
def wC4 : World :=
  ⟨[("u", 100)], false, fun _ => none, fun _ => false, true, 1, 1,
   fun _ => none⟩

/-- One record for the C4 run. -/
def emailsC4 : List Email := [⟨"f", "s", "b"⟩]

/-- C4 as stated is false: with balance 100 and one record at cost 1,
if every mini-insert fails the caller receives the generic 500
"IA analysis failed" — which is none of `InsufficientCredits`,
`AccountNotFound`, `StorageError`, nor a complete final report — and
the credit charge has nevertheless been applied (balance 99). -/
theorem C4_counterexample :
    (analyzev2 wC4 "u" emailsC4).outcome = .internalError
    ∧ getBalance (analyzev2 wC4 "u" emailsC4).profiles "u" = some 99 := by
  constructor
  · exact analyzev2_allMiniFail wC4 "u" emailsC4 100 (by decide)
      (by simp [emailsC4]) rfl (by norm_num [emailsC4, wC4])
      (fun i => rfl)
  · have h := analyzev2_profiles_funded wC4 "u" emailsC4 100 (by decide)
      (by simp [emailsC4]) rfl (by norm_num [emailsC4, wC4])
    rw [h]
    norm_num [emailsC4, wC4, setBalance, getBalance]

/-- Closed instance of `C4_analyze_error_contract`. -/
theorem C4_analyze_error_contract_witness :
    ((analyzev2 wC4 "u" emailsC4).outcome = .badRequest
       ∨ (analyzev2 wC4 "u" emailsC4).outcome = .notEnoughCredits
       ∨ (analyzev2 wC4 "u" emailsC4).outcome = .userNotFound →
      (analyzev2 wC4 "u" emailsC4).profiles = wC4.profiles)
    ∧ ((analyzev2 wC4 "u" emailsC4).outcome = .finalSaveFailed
       ∨ (analyzev2 wC4 "u" emailsC4).outcome = .internalError
       ∨ (∃ cl te ids fid fr,
            (analyzev2 wC4 "u" emailsC4).outcome = .ok cl te ids fid fr) →
      getBalance (analyzev2 wC4 "u" emailsC4).profiles "u"
        = some (100 - (emailsC4.length : Int) * wC4.creditsPerEmail))
    ∧ ((analyzev2 wC4 "u" emailsC4).outcome = .internalError →
      ∀ i, i < (chunkArray emailsC4 50).length →
        wC4.miniInsertOk i = false) :=
  C4_analyze_error_contract wC4 "u" emailsC4 100 rfl

/-- C3 (amended): a failed mini-insert drops the batch's repaired
result from provenance AND from the merge input — the accumulator is
left entirely unchanged (source lines 643-649 push to `miniReportIds`
and `partialJsons` together, only on success) — while the loop
continues with the remaining batches; the merge input and the
provenance list collect exactly the successful inserts, so the
persistence failure alone never stops the pipeline (the only indirect
abort is the empty-merge case, when no insert succeeded). -/
theorem C3_mini_insert_failure (jsonParse : String → Option JsObj)
    (script : Nat → Option String) (insertOk : Nat → Bool) (uid : String) :
    (∀ (i : Nat) (b : List Email) (acc : BatchAcc), insertOk i = false →
        processBatch jsonParse script insertOk uid i b acc = acc)
    ∧ (∀ (b : List Email) (rest : List (List Email)) (i : Nat)
        (acc : BatchAcc),
        runBatches jsonParse script insertOk uid (b :: rest) i acc
          = runBatches jsonParse script insertOk uid rest (i + 1)
              (processBatch jsonParse script insertOk uid i b acc))
    ∧ (∀ (batches : List (List Email)) (i : Nat) (acc : BatchAcc),
        (runBatches jsonParse script insertOk uid batches i acc).parts
          = acc.parts
            ++ ((batches.enumFrom i).filter (fun p => insertOk p.1)).map
                (fun p => batchParsed jsonParse script p.1 p.2))
    ∧ (∀ (batches : List (List Email)) (i : Nat) (acc : BatchAcc),
        (runBatches jsonParse script insertOk uid
            batches i acc).miniIds.length
          = acc.miniIds.length
            + ((batches.enumFrom i).filter
                (fun p => insertOk p.1)).length) := by
  refine ⟨?_, ?_, ?_, ?_⟩
  · intro i b acc h
    simp [processBatch, h]
  · intro b rest i acc
    rfl
  · exact runBatches_parts jsonParse script insertOk uid
  · exact runBatches_miniIds_length jsonParse script insertOk uid

/-- C3 as stated is false: a single batch whose mini-insert fails is
repaired (to the fallback result below) but the merge input stays
empty — the repaired result is NOT included in the Merge Reducer's
computation — and no id is recorded. -/
theorem C3_counterexample :
    (runBatches (fun _ => none) (fun _ => none) (fun _ => false) "u"
        [[⟨"f", "s", "b"⟩]] 0 ⟨[], [], [], 1⟩).parts = []
    ∧ (runBatches (fun _ => none) (fun _ => none) (fun _ => false) "u"
        [[⟨"f", "s", "b"⟩]] 0 ⟨[], [], [], 1⟩).miniIds = []
    ∧ batchParsed (fun _ => none) (fun _ => none) 0 [⟨"f", "s", "b"⟩]
        = fallbackResult "" 1 := by
  refine ⟨rfl, rfl, rfl⟩

/-- Closed instance of `C3_mini_insert_failure`: a failed insert
leaves the accumulator untouched. -/
theorem C3_mini_insert_failure_witness :
    processBatch (fun _ => none) (fun _ => none) (fun _ => false) "u" 0
        [⟨"f", "s", "b"⟩] ⟨[], [], [], 1⟩ = ⟨[], [], [], 1⟩ :=
  (C3_mini_insert_failure (fun _ => none) (fun _ => none)
    (fun _ => false) "u").1 0 [⟨"f", "s", "b"⟩] ⟨[], [], [], 1⟩ rfl

/-- C5: oracle failures never reach the caller.  A failed batch call
leaves `aiRaw` empty and the repair degrades the batch to the fallback
`\x7b total_emails: batch_size, classification: all-zero,
highlights: [], summary: "" \x7d` (the first 1000 characters of the
empty raw text); a failed merge-group call degrades that group to its
first member `group[0]`; and under a total oracle outage on a funded
run with working storage the pipeline still completes: the route
answers `ok` with the degraded final report (the fallback of the first
batch) and the final report row is persisted. -/
theorem C5_oracle_failure_degrades :
    (∀ (jsonParse : String → Option JsObj) (script : Nat → Option String)
        (i : Nat) (bt : List Email), script i = none →
        batchParsed jsonParse script i bt
          = [("total_emails", .num bt.length),
             ("classification", defaultClassification),
             ("highlights", .arr []),
             ("summary", .str "")])
    ∧ (∀ (jsonParse : String → Option JsObj)
        (script : Nat → Option String) (c : Nat) (g : List JsObj),
        script c = none → mergeGroup jsonParse (script c) g = g.headI)
    ∧ (∀ (w : World) (uid : String) (emails : List Email) (b : Int),
        uid ≠ "" → emails ≠ [] →
        getBalance w.profiles uid = some b →
        (emails.length : Int) * w.creditsPerEmail ≤ b →
        (∀ i, w.script i = none) → (∀ i, w.miniInsertOk i = true) →
        w.finalInsertOk = true →
        ∃ ids fid,
          (analyzev2 w uid emails).outcome
            = .ok (b - (emails.length : Int) * w.creditsPerEmail)
                emails.length ids fid
                (fallbackResult "" ((chunkArray emails 50).headI.length))
          ∧ ((analyzev2 w uid emails).rows.getLast?).map
              ReportRow.is_final = some true) := by
  refine ⟨?_, ?_, ?_⟩
  · intro jsonParse script i bt h
    unfold batchParsed rawOf
    rw [h]
    rfl
  · intro jsonParse script c g h
    rw [h]
    rfl
  · intro w uid emails b hu he hb hle hsc hins hf
    have hparts : (runBatches w.jsonParse w.script w.miniInsertOk uid
        (chunkArray emails 50) 0 ⟨[], [], [], w.nextReportId⟩).parts
        = ((chunkArray emails 50).enumFrom 0).map
            (fun p => batchParsed w.jsonParse w.script p.1 p.2) := by
      rw [runBatches_parts]
      rw [List.filter_eq_self.mpr (fun p _ => hins p.1)]
      simp
    obtain ⟨bb, rest, hbatches⟩ :
        ∃ bb rest, chunkArray emails 50 = bb :: rest := by
      cases hcb : chunkArray emails 50 with
      | nil =>
          rcases (chunkArray_eq_nil_iff emails 50).mp hcb with h | h
          · exact absurd h he
          · simp at h
      | cons bb rest => exact ⟨bb, rest, rfl⟩
    have hfirst : batchParsed w.jsonParse w.script 0 bb
        = fallbackResult "" bb.length := by
      unfold batchParsed rawOf
      rw [hsc 0]
      rfl
    have hmo : (mergeReports w.jsonParse w.script
        (runBatches w.jsonParse w.script w.miniInsertOk uid
          (chunkArray emails 50) 0 ⟨[], [], [], w.nextReportId⟩).parts
        (chunkArray emails 50).length).result
        = some (fallbackResult "" bb.length) := by
      rw [mergeReports_allFail w.jsonParse w.script hsc _ _ _ rfl,
        hparts, hbatches]
      simp [List.enumFrom, hfirst]
    rw [analyzev2_of_funded w uid emails b hu he hb hle]
    refine ⟨(runBatches w.jsonParse w.script w.miniInsertOk uid
        (chunkArray emails 50) 0 ⟨[], [], [], w.nextReportId⟩).miniIds,
      (runBatches w.jsonParse w.script w.miniInsertOk uid
        (chunkArray emails 50) 0 ⟨[], [], [], w.nextReportId⟩).nextId,
      ?_, ?_⟩
    · simp only [hmo, hf]
      rw [hbatches]
      simp
    · simp only [hmo, hf]
      simp [List.getLast?_concat, finalRow]

/-- The total-oracle-outage environment: funded account, every oracle
call failing, storage working. -/
def wC5 : World :=
  ⟨[("u", 100)], false, fun _ => none, fun _ => true, true, 1, 1,
   fun _ => none⟩

/-- One record for the outage run. -/
def emailsC5 : List Email := [⟨"f", "s", "b"⟩]

/-- Closed instance of `C5_oracle_failure_degrades`: the total-outage
scenario completes with the degraded report persisted. -/
theorem C5_oracle_failure_degrades_witness :
    ∃ ids fid,
      (analyzev2 wC5 "u" emailsC5).outcome
        = .ok (100 - (emailsC5.length : Int) * wC5.creditsPerEmail)
            emailsC5.length ids fid
            (fallbackResult "" ((chunkArray emailsC5 50).headI.length))
      ∧ ((analyzev2 wC5 "u" emailsC5).rows.getLast?).map
          ReportRow.is_final = some true :=
  C5_oracle_failure_degrades.2.2 wC5 "u" emailsC5 100 (by decide)
    (by simp [emailsC5]) rfl (by norm_num [emailsC5, wC5])
    (fun i => rfl) (fun i => rfl) rfl
